import Mathlib

/-!
# Verification of the rpi-touch-app media viewer

Shallow embedding of `src/rpitouch/app.py`: a touch-controlled kiosk that
cycles through a catalog of images and videos, advancing on touch/mouse
events, evdev listener tokens, or when a spawned video player process exits.

Python strings are modelled as lists of characters (`PStr`), times in
milliseconds as `Nat`, the spawned player process as an abstract status
(`Proc.running` / `Proc.exited`), and each control-loop tick as a function of
the environment input for that tick (current clock value, pending display
events, pending evdev tokens, whether the active process has exited, and
whether a termination request completes within its 2-second deadline).
Side effects on the screen and on the player process are recorded in an
event trace (`Ev`).  A `none` result models an uncaught Python exception
propagating out of the control loop.
-/

set_option maxRecDepth 4000

/-- Python strings modelled as their lists of characters (code points). -/
abbrev PStr := List Char

/-- `IMG_EXTS` (app.py:86): supported image extensions. -/
def IMG_EXTS : List PStr :=
  [".jpg".toList, ".jpeg".toList, ".png".toList, ".bmp".toList, ".gif".toList]

/-- `VID_EXTS` (app.py:87): supported video extensions. -/
def VID_EXTS : List PStr :=
  [".mp4".toList, ".mov".toList, ".mkv".toList, ".avi".toList]

/-- `MEDIA_DIR` (app.py:83). -/
def MEDIA_DIR : PStr := "/home/calen/projects/rpi-touch-app/media/".toList

/-- `MIN_VIEW_MS` (app.py:166): minimum time in ms each item stays before the
next token-driven advance. -/
def MIN_VIEW_MS : Nat := 1000

/-- The characters of `p` after its last `'/'` (the whole of `p` when it has
no `'/'`).  Helper for the model of `os.path.splitext`. -/
def basename (p : PStr) : PStr :=
  (p.reverse.takeWhile (fun c => c != '/')).reverse

/-- The suffix of `l` starting at its last `'.'` (inclusive), `[]` when `l`
has no `'.'`. -/
def extAfterLastDot (l : PStr) : PStr :=
  let r := l.reverse.takeWhile (fun c => c != '.')
  if r.length = l.length then [] else '.' :: r.reverse

/-- Modelled from CPython `posixpath.splitext`, as called at app.py:94 and
app.py:178: the extension is the suffix of the path starting at the last dot
of its final component, provided some earlier character of that component is
not a dot (so leading dots of a filename never start an extension, and a dot
before the last `'/'` never does). -/
def splitext_ext (p : PStr) : PStr :=
  extAfterLastDot ((basename p).dropWhile (fun c => c = '.'))

/-- `os.path.splitext(p)[1].lower()` as computed at app.py:94/178
(`str.lower` applied characterwise). -/
def extLower (p : PStr) : PStr := (splitext_ext p).map Char.toLower

/-- The `ext in IMG_EXTS` test of app.py:190 (with `ext` already lowered). -/
def isImagePath (p : PStr) : Bool := IMG_EXTS.contains (extLower p)

/-- The filter of app.py:94: lowercased extension in `IMG_EXTS | VID_EXTS`. -/
def supportedFile (f : PStr) : Bool := (IMG_EXTS ++ VID_EXTS).contains (extLower f)

/-- Modelled from CPython `posixpath.join` for the call
`os.path.join(MEDIA_DIR, f)` at app.py:92: an absolute second component wins;
otherwise a separator is inserted unless the first component is empty or
already ends with one. -/
def path_join (dir f : PStr) : PStr :=
  if f.head? = some '/' then f
  else if dir = [] ∨ dir.getLast? = some '/' then dir ++ f
  else dir ++ '/' :: f

/-- Python string comparison (`sorted` at app.py:93 uses it): lexicographic
by code point, a proper prefix sorts first. -/
def strLeB : PStr → PStr → Bool
  | [], _ => true
  | _ :: _, [] => false
  | a :: as, b :: bs =>
    if a < b then true
    else if b < a then false
    else strLeB as bs

/-- `strLeB` as a relation, for the sorting lemmas. -/
def strLe (a b : PStr) : Prop := strLeB a b = true

instance : DecidableRel strLe := fun a b => decEq (strLeB a b) true

/-- Python `sorted` on a list of strings (app.py:93).  Python's sort is a
stable comparison sort; since `strLe` is total, transitive and antisymmetric,
every sorted permutation of the input is the same list, so insertion sort is
extensionally exact. -/
def sortedPy (l : List PStr) : List PStr := List.insertionSort strLe l

/-- `load_media_list` (app.py:89-95) as a function of the directory listing
`os.listdir(MEDIA_DIR)`: join each supported file of the sorted listing onto
`MEDIA_DIR`. -/
def load_media_list (listing : List PStr) : List PStr :=
  ((sortedPy listing).filter supportedFile).map (fun f => path_join MEDIA_DIR f)

/-- Status of the spawned video player process, as observed by `poll()`:
`running` ↔ `poll() is None`. -/
inductive Proc where
  | running
  | exited
  deriving DecidableEq

/-- The mutable state of `main` (app.py:163-169): `idx`, `current_proc`,
`last_was_video`, `last_show_ms`. -/
structure St where
  idx : Nat
  current_proc : Option Proc
  last_was_video : Bool
  last_show_ms : Nat
  deriving DecidableEq

/-- Which external players `shutil.which` resolves (fixed for a run). -/
structure Avail where
  omx : Bool
  cvlc : Bool
  mpv : Bool
  deriving DecidableEq

/-- `play_video` (app.py:131-146): first available player from the fixed
priority order omxplayer → cvlc → mpv; `none` when no player is found. -/
def play_video (a : Avail) (path : PStr) : Option (List PStr) :=
  if a.omx then
    some ["omxplayer".toList, "--no-osd".toList, "--aspect-mode".toList, "fill".toList, path]
  else if a.cvlc then
    some ["cvlc".toList, "--fullscreen".toList, "--no-video-title-show".toList,
      "--play-and-exit".toList, path]
  else if a.mpv then
    some ["mpv".toList, "--fs".toList, "--quiet".toList, path]
  else none

/-- Observable effects of the control loop, in program order. -/
inductive Ev where
  | setLastShow (t : Nat)
  | terminateVid
  | blackout
  | resetDisplay
  | drawImage (p : PStr)
  | launchVideo (p : PStr)
  | fallbackBlack
  deriving DecidableEq

/-- The two branches of `show` after the running-video cleanup
(app.py:190-203): image branch (with the conditional blackout + display
reset) and video branch (launch, or black fallback frame on spawn
failure). -/
def show_branches (a : Avail) (s : St) (path : PStr) (tr : List Ev) : St × List Ev :=
  if isImagePath path then
    if s.last_was_video then
      ({ s with last_was_video := false },
        tr ++ [Ev.blackout, Ev.resetDisplay, Ev.drawImage path])
    else
      ({ s with last_was_video := false }, tr ++ [Ev.drawImage path])
  else
    if play_video a path = none then
      ({ s with current_proc := none, last_was_video := true },
        tr ++ [Ev.blackout, Ev.fallbackBlack])
    else
      ({ s with current_proc := some Proc.running, last_was_video := true },
        tr ++ [Ev.launchVideo path])

/-- `show` (app.py:171-203).  `last_show_ms` is assigned at the top
(app.py:175); a running video is terminated with `wait(timeout=2)`
(app.py:182-188); `termOk = false` means the process did not exit within the
timeout, in which case `Popen.wait` raises `subprocess.TimeoutExpired`, which
`show` does not catch — modelled as `none`.  An already-exited `current_proc`
does not match `poll() is None`, so it survives the cleanup unchanged. -/
def show_item (media : List PStr) (a : Avail) (termOk : Bool) (now : Nat)
    (s : St) (i : Nat) : Option (St × List Ev) :=
  if s.current_proc = some Proc.running then
    if termOk then
      some (show_branches a
        { s with last_show_ms := now, idx := i, current_proc := none, last_was_video := true }
        (media.getD i []) [Ev.setLastShow now, Ev.terminateVid])
    else none
  else
    some (show_branches a { s with last_show_ms := now, idx := i }
      (media.getD i []) [Ev.setLastShow now])

/-- `(idx + 1) % len(media)` (app.py:221/230/237). -/
def nextIdx (media : List PStr) (i : Nat) : Nat := (i + 1) % media.length

/-- One candidate advance token (touch/mouse event at app.py:219-224, or an
evdev token at app.py:234-240): advance and `show` when the dwell check
`now - last_show_ms >= MIN_VIEW_MS` passes, otherwise drop the token with no
state change. -/
def handleToken (media : List PStr) (a : Avail) (termOk : Bool) (now : Nat)
    (s : St) : Option (St × List Ev) :=
  if MIN_VIEW_MS ≤ now - s.last_show_ms then
    show_item media a termOk now s (nextIdx media s.idx)
  else some (s, [])

/-- Display-layer events delivered by `pygame.event.get()` (app.py:209). -/
inductive DispEvent where
  | quit
  | escape
  | touch
  | other
  deriving DecidableEq

/-- The `for event in pygame.event.get()` loop (app.py:209-224): quit/escape
clear `running` (the loop keeps going through the remaining events), touch
and mouse presses are dwell-gated candidate advances, other events are
ignored. -/
def drainEvents (media : List PStr) (a : Avail) (termOk : Bool) (now : Nat) :
    List DispEvent → St → Bool → Option (St × Bool × List Ev)
  | [], s, r => some (s, r, [])
  | DispEvent.quit :: rest, s, _ => drainEvents media a termOk now rest s false
  | DispEvent.escape :: rest, s, _ => drainEvents media a termOk now rest s false
  | DispEvent.other :: rest, s, r => drainEvents media a termOk now rest s r
  | DispEvent.touch :: rest, s, r =>
    match handleToken media a termOk now s with
    | none => none
    | some (s', tr) =>
      match drainEvents media a termOk now rest s' r with
      | none => none
      | some (s'', r'', tr'') => some (s'', r'', tr ++ tr'')

/-- The auto-advance check (app.py:227-231): when `current_proc` is set and
`poll()` is not `None`, clear it, flag `last_was_video`, and advance — with
no dwell check. -/
def autoAdvance (media : List PStr) (a : Avail) (termOk : Bool) (now : Nat)
    (s : St) : Option (St × List Ev) :=
  if s.current_proc = some Proc.exited then
    show_item media a termOk now
      { s with current_proc := none, last_was_video := true } (nextIdx media s.idx)
  else some (s, [])

/-- The `while not touch_queue.empty()` drain (app.py:234-240): `n` pending
evdev tokens, each dwell-gated like a touch event. -/
def drainTouchQueue (media : List PStr) (a : Avail) (termOk : Bool) (now : Nat) :
    Nat → St → Option (St × List Ev)
  | 0, s => some (s, [])
  | n + 1, s =>
    match handleToken media a termOk now s with
    | none => none
    | some (s', tr) =>
      match drainTouchQueue media a termOk now n s' with
      | none => none
      | some (s'', tr'') => some (s'', tr ++ tr'')

/-- Environment input for one iteration of the control loop. -/
structure TickIn where
  now : Nat
  exitsNow : Bool
  termOk : Bool
  events : List DispEvent
  evdev : Nat
  deriving DecidableEq

/-- A running player that exits between ticks is seen as exited by every
subsequent `poll()`. -/
def applyExit (e : Bool) (s : St) : St :=
  if s.current_proc = some Proc.running ∧ e = true then
    { s with current_proc := some Proc.exited }
  else s

/-- One iteration of the `while running` loop (app.py:208-242), in program
order: display-layer events (app.py:209-224), then the video-completion
check (app.py:227-231), then the evdev queue drain (app.py:234-240). -/
def tick (media : List PStr) (a : Avail) (inp : TickIn) (s : St) (running : Bool) :
    Option (St × Bool × List Ev) :=
  match drainEvents media a inp.termOk inp.now inp.events (applyExit inp.exitsNow s) running with
  | none => none
  | some (s1, r1, tr1) =>
    match autoAdvance media a inp.termOk inp.now s1 with
    | none => none
    | some (s2, tr2) =>
      match drainTouchQueue media a inp.termOk inp.now inp.evdev s2 with
      | none => none
      | some (s3, tr3) => some (s3, r1, tr1 ++ tr2 ++ tr3)

/-- The loop over a list of tick inputs; a tick runs only while `running`
holds at its start (app.py:208). -/
def run (media : List PStr) (a : Avail) :
    List TickIn → St → Bool → Option (St × Bool × List Ev)
  | [], s, r => some (s, r, [])
  | inp :: rest, s, r =>
    if r then
      match tick media a inp s r with
      | none => none
      | some (s', r', tr) =>
        match run media a rest s' r' with
        | none => none
        | some (s'', r'', tr'') => some (s'', r'', tr ++ tr'')
    else some (s, r, [])

/-- The state set up by app.py:163-169 before the initial `show(idx)`. -/
def initSt (t0 : Nat) : St :=
  { idx := 0, current_proc := none, last_was_video := false, last_show_ms := t0 }

/-- `main`'s startup `show(0)` (app.py:205) followed by the control loop over
the given tick inputs. -/
def runFromInit (media : List PStr) (a : Avail) (t0 : Nat) (inps : List TickIn) :
    Option (St × Bool × List Ev) :=
  match show_item media a true t0 (initSt t0) 0 with
  | none => none
  | some (s, tr) =>
    match run media a inps s true with
    | none => none
    | some (s', r', tr') => some (s', r', tr ++ tr')

/-- The times at which `last_show_ms` was assigned, i.e. the transition
instants, in order of occurrence. -/
def transTimes : List Ev → List Nat
  | [] => []
  | Ev.setLastShow t :: r => t :: transTimes r
  | _ :: r => transTimes r

/-- Every pair of consecutive transition times is at least `gap` apart. -/
def dwellOkB (gap : Nat) : List Nat → Bool
  | t1 :: t2 :: r => decide (gap ≤ t2 - t1) && dwellOkB gap (t2 :: r)
  | _ => true

/-- The tick in the order claimed by the specification sentence "display-layer
events are processed before listener-queue tokens before the video-completion
check" — stated from the claim's words, for comparison with `tick`. -/
def tickClaimOrder (media : List PStr) (a : Avail) (inp : TickIn) (s : St)
    (running : Bool) : Option (St × Bool × List Ev) :=
  match drainEvents media a inp.termOk inp.now inp.events (applyExit inp.exitsNow s) running with
  | none => none
  | some (s1, r1, tr1) =>
    match drainTouchQueue media a inp.termOk inp.now inp.evdev s1 with
    | none => none
    | some (s2, tr2) =>
      match autoAdvance media a inp.termOk inp.now s2 with
      | none => none
      | some (s3, tr3) => some (s3, r1, tr1 ++ tr2 ++ tr3)

/-! ## Structural lemmas -/

theorem transTimes_append (l₁ l₂ : List Ev) :
    transTimes (l₁ ++ l₂) = transTimes l₁ ++ transTimes l₂ := by
  induction l₁ with
  | nil => rfl
  | cons e r ih => cases e <;> simp [transTimes, ih]

theorem show_item_some_spec {media : List PStr} {a : Avail} {termOk : Bool}
    {now : Nat} {s : St} {i : Nat} {s' : St} {tr : List Ev}
    (h : show_item media a termOk now s i = some (s', tr)) :
    s'.last_show_ms = now ∧ s'.idx = i ∧ transTimes tr = [now]
      ∧ tr.head? = some (Ev.setLastShow now) := by
  unfold show_item show_branches at h
  split_ifs at h <;>
    (cases h; refine ⟨rfl, rfl, ?_, rfl⟩; simp [transTimes])

theorem show_item_not_running {media : List PStr} {a : Avail} {termOk : Bool}
    {now : Nat} {s : St} {i : Nat}
    (h : s.current_proc ≠ some Proc.running) :
    ∃ s' tr, show_item media a termOk now s i = some (s', tr) := by
  unfold show_item
  rw [if_neg h]
  exact ⟨_, _, rfl⟩

theorem handleToken_drop {media : List PStr} {a : Avail} {termOk : Bool}
    {now : Nat} {s : St} (h : now - s.last_show_ms < MIN_VIEW_MS) :
    handleToken media a termOk now s = some (s, []) := by
  unfold handleToken
  rw [if_neg (by omega)]

theorem handleToken_frozen {media : List PStr} {a : Avail} {termOk : Bool}
    {now : Nat} {s : St} (h : s.last_show_ms = now) :
    handleToken media a termOk now s = some (s, []) := by
  apply handleToken_drop
  simp [h, MIN_VIEW_MS]

theorem handleToken_some_spec {media : List PStr} {a : Avail} {termOk : Bool}
    {now : Nat} {s : St} {s' : St} {tr : List Ev}
    (h : handleToken media a termOk now s = some (s', tr)) :
    (s' = s ∧ tr = []) ∨
      (s'.last_show_ms = now ∧ transTimes tr = [now] ∧ s'.idx = nextIdx media s.idx) := by
  unfold handleToken at h
  split_ifs at h with hd
  · rcases show_item_some_spec h with ⟨h1, h2, h3, _⟩
    exact Or.inr ⟨h1, h3, h2⟩
  · cases h
    exact Or.inl ⟨rfl, rfl⟩

theorem drainEvents_frozen {media : List PStr} {a : Avail} {termOk : Bool}
    {now : Nat} (evts : List DispEvent) (s : St) (r : Bool)
    (h : s.last_show_ms = now) :
    ∃ r', drainEvents media a termOk now evts s r = some (s, r', []) := by
  induction evts generalizing r with
  | nil => exact ⟨r, rfl⟩
  | cons e rest ih =>
    cases e
    · exact ih false
    · exact ih false
    · rcases ih r with ⟨r', hr⟩
      refine ⟨r', ?_⟩
      unfold drainEvents
      rw [handleToken_frozen h]
      dsimp only
      rw [hr]
      rfl
    · exact ih r

theorem drainTouchQueue_frozen {media : List PStr} {a : Avail} {termOk : Bool}
    {now : Nat} (n : Nat) (s : St) (h : s.last_show_ms = now) :
    drainTouchQueue media a termOk now n s = some (s, []) := by
  induction n with
  | zero => rfl
  | succ n ih =>
    unfold drainTouchQueue
    rw [handleToken_frozen h]
    dsimp only
    rw [ih]
    rfl

theorem drainEvents_spec {media : List PStr} {a : Avail} {termOk : Bool}
    {now : Nat} {evts : List DispEvent} {s : St} {r : Bool}
    {s' : St} {r' : Bool} {tr : List Ev}
    (h : drainEvents media a termOk now evts s r = some (s', r', tr)) :
    (s' = s ∧ transTimes tr = []) ∨
      (s'.last_show_ms = now ∧ transTimes tr = [now]) := by
  induction evts generalizing s r with
  | nil =>
    cases h
    exact Or.inl ⟨rfl, rfl⟩
  | cons e rest ih =>
    cases e
    · exact ih h
    · exact ih h
    · unfold drainEvents at h
      rcases ht : handleToken media a termOk now s with _ | ⟨s1, tr1⟩
      · rw [ht] at h; cases h
      · rw [ht] at h
        dsimp only at h
        rcases hr : drainEvents media a termOk now rest s1 r with _ | ⟨⟨s2, r2, tr2⟩⟩
        · rw [hr] at h; cases h
        · rw [hr] at h
          dsimp only at h
          cases h
          rcases handleToken_some_spec ht with ⟨he, hte⟩ | ⟨h1, h2, _⟩
          · subst he; subst hte
            simpa using ih hr
          · rcases drainEvents_frozen rest s1 r h1 with ⟨r3, hfr⟩
            rw [hfr] at hr
            cases hr
            rw [transTimes_append, h2]
            exact Or.inr ⟨h1, by simp [transTimes]⟩
    · exact ih h

theorem drainTouchQueue_spec {media : List PStr} {a : Avail} {termOk : Bool}
    {now : Nat} {n : Nat} {s : St} {s' : St} {tr : List Ev}
    (h : drainTouchQueue media a termOk now n s = some (s', tr)) :
    (s' = s ∧ transTimes tr = []) ∨
      (s'.last_show_ms = now ∧ transTimes tr = [now]) := by
  induction n generalizing s with
  | zero =>
    cases h
    exact Or.inl ⟨rfl, rfl⟩
  | succ n ih =>
    unfold drainTouchQueue at h
    rcases ht : handleToken media a termOk now s with _ | ⟨s1, tr1⟩
    · rw [ht] at h; cases h
    · rw [ht] at h
      dsimp only at h
      rcases hr : drainTouchQueue media a termOk now n s1 with _ | ⟨s2, tr2⟩
      · rw [hr] at h; cases h
      · rw [hr] at h
        dsimp only at h
        cases h
        rcases handleToken_some_spec ht with ⟨he, hte⟩ | ⟨h1, h2, _⟩
        · subst he; subst hte
          simpa using ih hr
        · rw [drainTouchQueue_frozen n s1 h1] at hr
          cases hr
          rw [transTimes_append, h2]
          exact Or.inr ⟨h1, by simp [transTimes]⟩

theorem autoAdvance_spec {media : List PStr} {a : Avail} {termOk : Bool}
    {now : Nat} {s : St} {s' : St} {tr : List Ev}
    (h : autoAdvance media a termOk now s = some (s', tr)) :
    (s' = s ∧ tr = []) ∨ (s'.last_show_ms = now ∧ transTimes tr = [now]) := by
  unfold autoAdvance at h
  split_ifs at h
  · rcases show_item_some_spec h with ⟨h1, _, h3, _⟩
    exact Or.inr ⟨h1, h3⟩
  · cases h
    exact Or.inl ⟨rfl, rfl⟩

theorem nextIdx_lt {media : List PStr} (h : media ≠ []) (i : Nat) :
    nextIdx media i < media.length :=
  Nat.mod_lt _ (List.length_pos.mpr h)

theorem handleToken_idx {media : List PStr} {a : Avail} {termOk : Bool}
    {now : Nat} {s : St} {s' : St} {tr : List Ev}
    (h : handleToken media a termOk now s = some (s', tr)) :
    s'.idx = s.idx ∨ s'.idx = nextIdx media s.idx := by
  rcases handleToken_some_spec h with ⟨he, _⟩ | ⟨_, _, hi⟩
  · exact Or.inl (he ▸ rfl)
  · exact Or.inr hi

theorem drainEvents_idx {media : List PStr} {a : Avail} {termOk : Bool}
    {now : Nat} {evts : List DispEvent} {s : St} {r : Bool}
    {s' : St} {r' : Bool} {tr : List Ev} (hm : media ≠ [])
    (hs : s.idx < media.length)
    (h : drainEvents media a termOk now evts s r = some (s', r', tr)) :
    s'.idx < media.length := by
  induction evts generalizing s r s' r' tr with
  | nil => cases h; exact hs
  | cons e rest ih =>
    cases e
    · exact ih hs h
    · exact ih hs h
    · unfold drainEvents at h
      rcases ht : handleToken media a termOk now s with _ | ⟨s1, tr1⟩
      · rw [ht] at h; cases h
      · rw [ht] at h
        dsimp only at h
        rcases hr : drainEvents media a termOk now rest s1 r with _ | ⟨⟨s2, r2, tr2⟩⟩
        · rw [hr] at h; cases h
        · rw [hr] at h
          dsimp only at h
          cases h
          have h1 : s1.idx < media.length := by
            rcases handleToken_idx ht with hi | hi
            · exact hi ▸ hs
            · exact hi ▸ nextIdx_lt hm s.idx
          exact ih h1 hr
    · exact ih hs h

theorem drainTouchQueue_idx {media : List PStr} {a : Avail} {termOk : Bool}
    {now : Nat} {n : Nat} {s : St} {s' : St} {tr : List Ev} (hm : media ≠ [])
    (hs : s.idx < media.length)
    (h : drainTouchQueue media a termOk now n s = some (s', tr)) :
    s'.idx < media.length := by
  induction n generalizing s s' tr with
  | zero => cases h; exact hs
  | succ n ih =>
    unfold drainTouchQueue at h
    rcases ht : handleToken media a termOk now s with _ | ⟨s1, tr1⟩
    · rw [ht] at h; cases h
    · rw [ht] at h
      dsimp only at h
      rcases hr : drainTouchQueue media a termOk now n s1 with _ | ⟨s2, tr2⟩
      · rw [hr] at h; cases h
      · rw [hr] at h
        dsimp only at h
        cases h
        have h1 : s1.idx < media.length := by
          rcases handleToken_idx ht with hi | hi
          · exact hi ▸ hs
          · exact hi ▸ nextIdx_lt hm s.idx
        exact ih h1 hr

theorem autoAdvance_idx {media : List PStr} {a : Avail} {termOk : Bool}
    {now : Nat} {s : St} {s' : St} {tr : List Ev} (hm : media ≠ [])
    (hs : s.idx < media.length)
    (h : autoAdvance media a termOk now s = some (s', tr)) :
    s'.idx < media.length := by
  unfold autoAdvance at h
  split_ifs at h
  · exact (show_item_some_spec h).2.1 ▸ nextIdx_lt hm s.idx
  · cases h; exact hs

theorem applyExit_idx (e : Bool) (s : St) :
    (applyExit e s).idx = s.idx ∧ (applyExit e s).last_show_ms = s.last_show_ms := by
  unfold applyExit
  split_ifs <;> exact ⟨rfl, rfl⟩

theorem tick_decomp {media : List PStr} {a : Avail} {inp : TickIn} {s : St}
    {running : Bool} {out : St × Bool × List Ev}
    (h : tick media a inp s running = some out) :
    ∃ s1 r1 tr1 s2 tr2 s3 tr3,
      drainEvents media a inp.termOk inp.now inp.events (applyExit inp.exitsNow s) running
        = some (s1, r1, tr1)
      ∧ autoAdvance media a inp.termOk inp.now s1 = some (s2, tr2)
      ∧ drainTouchQueue media a inp.termOk inp.now inp.evdev s2 = some (s3, tr3)
      ∧ out = (s3, r1, tr1 ++ tr2 ++ tr3) := by
  unfold tick at h
  rcases he : drainEvents media a inp.termOk inp.now inp.events (applyExit inp.exitsNow s)
      running with _ | ⟨⟨s1, r1, tr1⟩⟩
  · rw [he] at h; cases h
  · rw [he] at h
    dsimp only at h
    rcases ha : autoAdvance media a inp.termOk inp.now s1 with _ | ⟨s2, tr2⟩
    · rw [ha] at h; cases h
    · rw [ha] at h
      dsimp only at h
      rcases hq : drainTouchQueue media a inp.termOk inp.now inp.evdev s2 with _ | ⟨s3, tr3⟩
      · rw [hq] at h; cases h
      · rw [hq] at h
        dsimp only at h
        cases h
        exact ⟨s1, r1, tr1, s2, tr2, s3, tr3, rfl, ha, hq, rfl⟩

theorem tick_idx {media : List PStr} {a : Avail} {inp : TickIn} {s : St}
    {running : Bool} {s' : St} {r' : Bool} {tr : List Ev} (hm : media ≠ [])
    (hs : s.idx < media.length)
    (h : tick media a inp s running = some (s', r', tr)) :
    s'.idx < media.length := by
  rcases tick_decomp h with ⟨s1, r1, tr1, s2, tr2, s3, tr3, he, ha, hq, hout⟩
  have h0 : (applyExit inp.exitsNow s).idx < media.length :=
    (applyExit_idx inp.exitsNow s).1 ▸ hs
  have h1 := drainEvents_idx hm h0 he
  have h2 := autoAdvance_idx hm h1 ha
  have h3 := drainTouchQueue_idx hm h2 hq
  cases hout
  exact h3

theorem tick_last_show {media : List PStr} {a : Avail} {inp : TickIn} {s : St}
    {running : Bool} {s' : St} {r' : Bool} {tr : List Ev}
    (h : tick media a inp s running = some (s', r', tr)) :
    s'.last_show_ms = s.last_show_ms
      ∨ (s'.last_show_ms = inp.now ∧ transTimes tr ≠ []) := by
  rcases tick_decomp h with ⟨s1, r1, tr1, s2, tr2, s3, tr3, he, ha, hq, hout⟩
  cases hout
  have happ : transTimes (tr1 ++ tr2 ++ tr3)
      = transTimes tr1 ++ transTimes tr2 ++ transTimes tr3 := by
    rw [transTimes_append, transTimes_append]
  rcases drainTouchQueue_spec hq with ⟨e3, t3⟩ | ⟨e3, t3⟩
  · subst e3
    rcases autoAdvance_spec ha with ⟨e2, t2⟩ | ⟨e2, t2⟩
    · subst e2
      rcases drainEvents_spec he with ⟨e1, t1⟩ | ⟨e1, t1⟩
      · subst e1
        exact Or.inl (applyExit_idx inp.exitsNow s).2
      · refine Or.inr ⟨e1, ?_⟩
        rw [happ, t1]
        simp
    · refine Or.inr ⟨e2, ?_⟩
      rw [happ, t2]
      simp
  · refine Or.inr ⟨e3, ?_⟩
    rw [happ, t3]
    simp

theorem tokenTrans_le_one {media : List PStr} {a : Avail} {termOk : Bool}
    {now : Nat} {evts : List DispEvent} {s : St} {running : Bool}
    {s1 : St} {r1 : Bool} {tr1 : List Ev} {s2 : St} {tr2 : List Ev}
    {n : Nat} {s3 : St} {tr3 : List Ev}
    (he : drainEvents media a termOk now evts s running = some (s1, r1, tr1))
    (ha : autoAdvance media a termOk now s1 = some (s2, tr2))
    (hq : drainTouchQueue media a termOk now n s2 = some (s3, tr3)) :
    (transTimes tr1).length + (transTimes tr3).length ≤ 1 := by
  rcases drainEvents_spec he with ⟨_, t1⟩ | ⟨e1, t1⟩
  · rw [t1]
    rcases drainTouchQueue_spec hq with ⟨_, t3⟩ | ⟨_, t3⟩ <;> simp [t3]
  · have e2 : s2.last_show_ms = now := by
      rcases autoAdvance_spec ha with ⟨he2, _⟩ | ⟨e2, _⟩
      · subst he2; exact e1
      · exact e2
    rw [drainTouchQueue_frozen n s2 e2] at hq
    cases hq
    rw [t1]
    simp [transTimes]

/-! ## Claims -/

/-- C1 counterexample: the dwell window does NOT cover the video-completion
auto-advance.  Catalog `["v.mp4"]` with mpv available: the initial `show` at
t=0 launches the player; at the first tick (t=100) the player has exited and
the auto-advance (app.py:227-231) transitions again with no dwell check —
two transitions 100 ms apart, violating the 1000 ms minimum the claim
asserts for all advance causes. -/
theorem C1_counterexample :
    (runFromInit ["v.mp4".toList] ⟨false, false, true⟩ 0
        [⟨100, true, true, [], 0⟩]).map (fun out => transTimes out.2.2)
      = some [0, 100]
    ∧ dwellOkB MIN_VIEW_MS [0, 100] = false := by
  exact ⟨by decide, by decide⟩

/-- C1 (amended): every candidate user advance token — display-layer
touch/mouse press or evdev listener token — is checked against the dwell
window, and a failing token is dropped with no state change, no queueing and
no retry; the auto-advance on video completion, however, is not dwell-gated:
with an exited process it transitions unconditionally. -/
theorem C1_dwell_gate (media : List PStr) (a : Avail) (termOk : Bool)
    (now : Nat) (s : St) :
    (now - s.last_show_ms < MIN_VIEW_MS →
      handleToken media a termOk now s = some (s, []))
    ∧ (s.current_proc = some Proc.exited →
      autoAdvance media a termOk now s = show_item media a termOk now
        { s with current_proc := none, last_was_video := true }
        (nextIdx media s.idx)) := by
  constructor
  · exact handleToken_drop
  · intro h
    unfold autoAdvance
    rw [if_pos h]

/-- Witness for `C1_dwell_gate` at a concrete state inside the dwell window
with an exited process. -/
theorem C1_dwell_gate_witness :
    handleToken ["a.jpg".toList] ⟨false, false, false⟩ true 500
        ⟨0, some Proc.exited, true, 0⟩ = some (⟨0, some Proc.exited, true, 0⟩, [])
    ∧ autoAdvance ["a.jpg".toList] ⟨false, false, false⟩ true 500
        ⟨0, some Proc.exited, true, 0⟩
      = show_item ["a.jpg".toList] ⟨false, false, false⟩ true 500
        ⟨0, none, true, 0⟩ (nextIdx ["a.jpg".toList] 0) :=
  ⟨(C1_dwell_gate _ _ _ _ _).1 (by decide), (C1_dwell_gate _ _ _ _ _).2 rfl⟩

/-- C3 counterexample: the claimed intra-tick order (display events, then
listener-queue tokens, then the completion check) is not the code's order.
With a finished video and one pending evdev token, the implementation
(`tick`: completion check before the queue drain) advances once to index 1 —
the auto-advance resets the dwell timer and the token is then dropped —
while the claimed order (`tickClaimOrder`) would advance twice, to index 2. -/
theorem C3_counterexample :
    (tick ["v.mp4".toList, "a.jpg".toList, "b.jpg".toList] ⟨false, false, true⟩
        ⟨5000, true, true, [], 1⟩ ⟨0, some Proc.running, true, 0⟩ true).map
          (fun out => out.1.idx) = some 1
    ∧ (tickClaimOrder ["v.mp4".toList, "a.jpg".toList, "b.jpg".toList]
        ⟨false, false, true⟩
        ⟨5000, true, true, [], 1⟩ ⟨0, some Proc.running, true, 0⟩ true).map
          (fun out => out.1.idx) = some 2 := by
  exact ⟨by decide, by decide⟩

/-- C3 (amended): within one tick the phases run in the code's program order
— display-layer events first, then the video-completion check, then the
evdev listener-queue tokens — and at most one token-driven transition is
applied per tick, no matter how many qualifying tokens arrived: the first
accepted token resets `last_show_ms` to the tick's clock value, so every
later token of the same tick fails the dwell check. -/
theorem C3_tick_order (media : List PStr) (a : Avail) (inp : TickIn) (s : St)
    (running : Bool) (s1 : St) (r1 : Bool) (tr1 : List Ev) (s2 : St)
    (tr2 : List Ev) (s3 : St) (tr3 : List Ev)
    (he : drainEvents media a inp.termOk inp.now inp.events
      (applyExit inp.exitsNow s) running = some (s1, r1, tr1))
    (ha : autoAdvance media a inp.termOk inp.now s1 = some (s2, tr2))
    (hq : drainTouchQueue media a inp.termOk inp.now inp.evdev s2 = some (s3, tr3)) :
    tick media a inp s running = some (s3, r1, tr1 ++ tr2 ++ tr3)
    ∧ (transTimes tr1).length + (transTimes tr3).length ≤ 1 := by
  constructor
  · unfold tick
    rw [he]
    dsimp only
    rw [ha]
    dsimp only
    rw [hq]
  · exact tokenTrans_le_one he ha hq

/-- Witness for `C3_tick_order`: one accepted display touch followed by two
pending evdev tokens in the same tick yields exactly one transition. -/
theorem C3_tick_order_witness :
    tick ["a.jpg".toList] ⟨false, false, false⟩ ⟨5000, false, true, [DispEvent.touch], 2⟩
        ⟨0, none, false, 0⟩ true
      = some (⟨0, none, false, 5000⟩, true,
          ([Ev.setLastShow 5000, Ev.drawImage "a.jpg".toList] ++ [] ++ []))
    ∧ (transTimes [Ev.setLastShow 5000, Ev.drawImage "a.jpg".toList]).length
        + (transTimes ([] : List Ev)).length ≤ 1 :=
  C3_tick_order ["a.jpg".toList] ⟨false, false, false⟩
    ⟨5000, false, true, [DispEvent.touch], 2⟩ ⟨0, none, false, 0⟩ true
    ⟨0, none, false, 5000⟩ true [Ev.setLastShow 5000, Ev.drawImage "a.jpg".toList]
    ⟨0, none, false, 5000⟩ [] ⟨0, none, false, 5000⟩ []
    (by decide) (by decide) (by decide)

/-- C4 (code bug): `show` calls `current_proc.wait(timeout=2)` (app.py:185)
with no exception handler.  When the running player has not exited once the
2-second timeout elapses (`termOk = false`), `Popen.wait` raises
`subprocess.TimeoutExpired`, which propagates out of `show` and crashes the
control loop (result `none`) — the claim (and the spec) say the call returns
normally with the handle abandoned.  With an otherwise identical state whose
process does exit in time, the same transition completes normally. -/
theorem C4_wait_timeout_crashes :
    show_item ["v.mp4".toList, "a.jpg".toList] ⟨false, false, true⟩ false 5000
        ⟨0, some Proc.running, true, 0⟩ 1 = none
    ∧ show_item ["v.mp4".toList, "a.jpg".toList] ⟨false, false, true⟩ true 5000
        ⟨0, some Proc.running, true, 0⟩ 1
      = some (⟨1, none, false, 5000⟩,
          [Ev.setLastShow 5000, Ev.terminateVid, Ev.blackout, Ev.resetDisplay,
            Ev.drawImage "a.jpg".toList]) := by
  exact ⟨by decide, by decide⟩

/-- C5: from index 0, k accepted advances land on `k mod N`; the advance map
`(i+1) % N` always stays inside `[0, N)`; every control-loop tick preserves
the bound; and with a single-item catalog an accepted token re-targets the
same index 0 through the full `show` logic rather than being special-cased. -/
theorem C5_index_wraparound (media : List PStr) (h : media ≠ []) :
    (∀ k, (fun i => nextIdx media i)^[k] 0 = k % media.length)
    ∧ (∀ i, nextIdx media i < media.length)
    ∧ (∀ a inp s running s' r' tr, s.idx < media.length →
        tick media a inp s running = some (s', r', tr) → s'.idx < media.length)
    ∧ (media.length = 1 → ∀ a termOk now s, MIN_VIEW_MS ≤ now - s.last_show_ms →
        handleToken media a termOk now s = show_item media a termOk now s 0) := by
  refine ⟨?_, nextIdx_lt h, ?_, ?_⟩
  · intro k
    induction k with
    | zero => simp
    | succ k ih =>
      rw [Function.iterate_succ_apply', ih]
      exact (Nat.mod_modEq k media.length).add_right 1
  · intro a inp s running s' r' tr hs ht
    exact tick_idx h hs ht
  · intro h1 a termOk now s hd
    unfold handleToken
    rw [if_pos hd]
    unfold nextIdx
    rw [h1, Nat.mod_one]

/-- Witness for `C5_index_wraparound`: seven advances on a three-item
catalog land on index 7 mod 3 = 1. -/
theorem C5_index_wraparound_witness :
    (fun i => nextIdx ["v.mp4".toList, "a.jpg".toList, "b.jpg".toList] i)^[7] 0
      = 7 % (["v.mp4".toList, "a.jpg".toList, "b.jpg".toList] : List PStr).length :=
  (C5_index_wraparound ["v.mp4".toList, "a.jpg".toList, "b.jpg".toList] (by decide)).1 7

/-- C7 counterexample: in a Video→Image transition with a live player,
`last_show_ms` is assigned as the FIRST step of `show` (app.py:175), before
the terminate, the surface reset and the draw: the trace begins with
`setLastShow` and ends with `drawImage`, contradicting the claim that the
time update is the final step. -/
theorem C7_counterexample :
    show_item ["v.mov".toList, "c.png".toList] ⟨true, false, false⟩ true 3000
        ⟨0, some Proc.running, true, 0⟩ 1
      = some (⟨1, none, false, 3000⟩,
          [Ev.setLastShow 3000, Ev.terminateVid, Ev.blackout, Ev.resetDisplay,
            Ev.drawImage "c.png".toList])
    ∧ [Ev.setLastShow 3000, Ev.terminateVid, Ev.blackout, Ev.resetDisplay,
        Ev.drawImage "c.png".toList].getLast? ≠ some (Ev.setLastShow 3000) := by
  exact ⟨by decide, by decide⟩

/-- C7 (amended): `last_show_ms` is set to the current time as the first
step of every successful transition — before any video termination, surface
reset, render or launch — exactly once per transition; and across a tick it
changes only when a transition occurred in that tick. -/
theorem C7_time_update_first (media : List PStr) (a : Avail) (termOk : Bool)
    (now : Nat) (s : St) (i : Nat) :
    (∀ s' tr, show_item media a termOk now s i = some (s', tr) →
      tr.head? = some (Ev.setLastShow now) ∧ s'.last_show_ms = now
        ∧ transTimes tr = [now])
    ∧ (∀ inp running s' r' tr, tick media a inp s running = some (s', r', tr) →
      s'.last_show_ms = s.last_show_ms
        ∨ (s'.last_show_ms = inp.now ∧ transTimes tr ≠ [])) := by
  constructor
  · intro s' tr hsome
    rcases show_item_some_spec hsome with ⟨h1, _, h3, h4⟩
    exact ⟨h4, h1, h3⟩
  · intro inp running s' r' tr hsome
    exact tick_last_show hsome

/-- Witness for `C7_time_update_first` at a concrete image transition. -/
theorem C7_time_update_first_witness :
    [Ev.setLastShow 400, Ev.drawImage "a.jpg".toList].head? = some (Ev.setLastShow 400)
      ∧ (⟨0, none, false, 400⟩ : St).last_show_ms = 400
      ∧ transTimes [Ev.setLastShow 400, Ev.drawImage "a.jpg".toList] = [400] :=
  (C7_time_update_first ["a.jpg".toList] ⟨false, false, false⟩ true 400
      ⟨0, none, false, 0⟩ 0).1 ⟨0, none, false, 400⟩
    [Ev.setLastShow 400, Ev.drawImage "a.jpg".toList] (by decide)

/-- C2 (code bug): a full surface reset can happen on an Image→Image
transition.  Run: catalog `["v.mp4","a.jpg","b.jpg"]`, the player exits on
its own, and a touch arrives in the same tick.  The touch-driven `show`
skips the cleanup block (`poll()` is not `None`, app.py:182) and leaves the
exited handle in `current_proc`; after `a.jpg` is drawn, the completion
check (app.py:227) fires on that stale handle, forces `last_was_video` to
true and advances again, so `b.jpg` is drawn after a blackout + reset even
though the previous item was the image `a.jpg` — and one tap moved the index
by two with 0 ms between the transitions.  This contradicts the claimed
"reset iff Video→Image" invariant and the code's own stated intent (the
flag comment at app.py:187 and the per-item minimum view time at
app.py:166). -/
theorem C2_reset_after_image :
    runFromInit ["v.mp4".toList, "a.jpg".toList, "b.jpg".toList] ⟨false, false, true⟩ 0
        [⟨2000, true, true, [DispEvent.touch], 0⟩]
      = some (⟨2, none, false, 2000⟩, true,
          [Ev.setLastShow 0, Ev.launchVideo "v.mp4".toList,
            Ev.setLastShow 2000, Ev.blackout, Ev.resetDisplay,
            Ev.drawImage "a.jpg".toList,
            Ev.setLastShow 2000, Ev.blackout, Ev.resetDisplay,
            Ev.drawImage "b.jpg".toList]) := by
  decide

/-- C6: `play_video` resolves players in the fixed priority order
omxplayer → cvlc → mpv and returns `none` (spawn failure) when none
resolves, without raising; on spawn failure `show` blacks the screen as a
fallback frame, keeps no process handle, marks the item shown
(`last_show_ms`/`idx` updated, no retry) and sets `last_was_video := true`,
so the next image transition still performs the blackout + surface reset. -/
theorem C6_player_priority (a : Avail) (p : PStr) (media : List PStr)
    (termOk : Bool) (now : Nat) (s : St) (i : Nat) :
    (a.omx = true → play_video a p
      = some ["omxplayer".toList, "--no-osd".toList, "--aspect-mode".toList,
          "fill".toList, p])
    ∧ (a.omx = false → a.cvlc = true → play_video a p
      = some ["cvlc".toList, "--fullscreen".toList, "--no-video-title-show".toList,
          "--play-and-exit".toList, p])
    ∧ (a.omx = false → a.cvlc = false → a.mpv = true → play_video a p
      = some ["mpv".toList, "--fs".toList, "--quiet".toList, p])
    ∧ (a.omx = false → a.cvlc = false → a.mpv = false → play_video a p = none)
    ∧ (s.current_proc ≠ some Proc.running →
        isImagePath (media.getD i []) = false →
        play_video a (media.getD i []) = none →
        show_item media a termOk now s i
          = some ({ s with
              last_show_ms := now, idx := i, current_proc := none,
              last_was_video := true },
            [Ev.setLastShow now, Ev.blackout, Ev.fallbackBlack]))
    ∧ (∀ s2 j, s2.current_proc = none → s2.last_was_video = true →
        isImagePath (media.getD j []) = true →
        show_item media a termOk now s2 j
          = some ({ s2 with
              last_show_ms := now, idx := j, last_was_video := false },
            [Ev.setLastShow now, Ev.blackout, Ev.resetDisplay,
              Ev.drawImage (media.getD j [])])) := by
  refine ⟨?_, ?_, ?_, ?_, ?_, ?_⟩
  · intro h1
    unfold play_video
    rw [if_pos h1]
  · intro h1 h2
    unfold play_video
    rw [if_neg (by simp [h1]), if_pos h2]
  · intro h1 h2 h3
    unfold play_video
    rw [if_neg (by simp [h1]), if_neg (by simp [h2]), if_pos h3]
  · intro h1 h2 h3
    unfold play_video
    rw [if_neg (by simp [h1]), if_neg (by simp [h2]), if_neg (by simp [h3])]
  · intro hp himg hnone
    rw [List.getD_eq_getElem?_getD] at himg hnone
    unfold show_item show_branches
    rw [if_neg hp]
    simp [himg, hnone]
  · intro s2 j hproc hlwv himg
    rw [List.getD_eq_getElem?_getD] at himg
    unfold show_item show_branches
    rw [if_neg (by rw [hproc]; simp)]
    simp [himg, hlwv]

/-- Witness for `C6_player_priority`: with no player available, a video item
gets the black fallback (no handle kept, `last_was_video` set), and the
following image transition resets the surface. -/
theorem C6_player_priority_witness :
    show_item ["x.mp4".toList, "y.gif".toList] ⟨false, false, false⟩ true 1500
        ⟨0, none, false, 0⟩ 0
      = some (⟨0, none, true, 1500⟩,
          [Ev.setLastShow 1500, Ev.blackout, Ev.fallbackBlack])
    ∧ show_item ["x.mp4".toList, "y.gif".toList] ⟨false, false, false⟩ true 3000
        ⟨0, none, true, 1500⟩ 1
      = some (⟨1, none, false, 3000⟩,
          [Ev.setLastShow 3000, Ev.blackout, Ev.resetDisplay,
            Ev.drawImage "y.gif".toList]) :=
  ⟨(C6_player_priority ⟨false, false, false⟩ [] ["x.mp4".toList, "y.gif".toList] true 1500
      ⟨0, none, false, 0⟩ 0).2.2.2.2.1 (by decide) (by decide) (by decide),
    (C6_player_priority ⟨false, false, false⟩ [] ["x.mp4".toList, "y.gif".toList] true 3000
      ⟨0, none, false, 0⟩ 0).2.2.2.2.2 ⟨0, none, true, 1500⟩ 1 rfl rfl (by decide)⟩

/-- C8: a spawn-failed video leaves `current_proc = none`, so the
video-completion check can never fire for it: over any sequence of ticks
that deliver no user token (no display events, empty evdev queue) the state
— and hence the black fallback frame — persists entirely unchanged, whatever
the per-tick exit flags; and once a token passing the dwell check arrives,
the controller does transition. -/
theorem C8_spawn_failed_waits (media : List PStr) (a : Avail) :
    (∀ termOk now s i s' tr,
      isImagePath (media.getD i []) = false →
      play_video a (media.getD i []) = none →
      show_item media a termOk now s i = some (s', tr) → s'.current_proc = none)
    ∧ (∀ inps s running, s.current_proc = none →
        (∀ inp ∈ inps, inp.events = [] ∧ inp.evdev = 0) →
        run media a inps s running = some (s, running, []))
    ∧ (∀ termOk now s, s.current_proc = none →
        MIN_VIEW_MS ≤ now - s.last_show_ms →
        ∃ s' tr, handleToken media a termOk now s = some (s', tr)
          ∧ transTimes tr = [now]) := by
  refine ⟨?_, ?_, ?_⟩
  · intro termOk now s i s' tr himg hnone h
    unfold show_item show_branches at h
    split_ifs at h <;> simp_all
    all_goals rcases h with ⟨rfl, rfl⟩
    all_goals rfl
  · intro inps s running hproc hin
    revert hin
    induction inps generalizing running with
    | nil => intro _; rfl
    | cons inp rest ih =>
      intro hin
      have h0 := hin inp (List.mem_cons_self _ _)
      have hrest : ∀ i ∈ rest, i.events = [] ∧ i.evdev = 0 :=
        fun i hi => hin i (List.mem_cons_of_mem _ hi)
      have hae : applyExit inp.exitsNow s = s := by
        unfold applyExit
        rw [if_neg]
        simp [hproc]
      have htick : tick media a inp s true = some (s, true, []) := by
        unfold tick
        rw [h0.1, hae]
        have he : drainEvents media a inp.termOk inp.now [] s true
            = some (s, true, []) := rfl
        rw [he]
        dsimp only
        have ha : autoAdvance media a inp.termOk inp.now s = some (s, []) := by
          unfold autoAdvance
          rw [if_neg]
          simp [hproc]
        rw [ha]
        dsimp only
        rw [h0.2]
        rfl
      cases running
      · rfl
      · unfold run
        rw [if_pos rfl]
        rw [htick]
        dsimp only
        rw [ih true hrest]
        rfl
  · intro termOk now s hproc hd
    have hp : s.current_proc ≠ some Proc.running := by
      rw [hproc]
      simp
    rcases @show_item_not_running media a termOk now s (nextIdx media s.idx) hp
      with ⟨s', tr, hs⟩
    refine ⟨s', tr, ?_, (show_item_some_spec hs).2.2.1⟩
    unfold handleToken
    rw [if_pos hd, hs]

/-- Witness for `C8_spawn_failed_waits`: a tokenless tick leaves the state
untouched, and a dwell-passing token from the fallback state transitions. -/
theorem C8_spawn_failed_waits_witness :
    run ["x.mp4".toList] ⟨false, false, false⟩ [⟨9999, true, true, [], 0⟩]
        ⟨0, none, true, 0⟩ true = some (⟨0, none, true, 0⟩, true, [])
    ∧ ∃ s' tr, handleToken ["x.mp4".toList] ⟨false, false, false⟩ true 5000
        ⟨0, none, true, 0⟩ = some (s', tr) ∧ transTimes tr = [5000] :=
  ⟨(C8_spawn_failed_waits ["x.mp4".toList] ⟨false, false, false⟩).2.1
      [⟨9999, true, true, [], 0⟩] ⟨0, none, true, 0⟩ true rfl (by decide),
    (C8_spawn_failed_waits ["x.mp4".toList] ⟨false, false, false⟩).2.2
      true 5000 ⟨0, none, true, 0⟩ rfl (by decide)⟩

/-! ## String order and path lemmas -/

theorem strLeB_total : ∀ a b : PStr, strLeB a b = true ∨ strLeB b a = true
  | [], _ => Or.inl rfl
  | _ :: _, [] => Or.inr rfl
  | a :: as, b :: bs => by
    unfold strLeB
    rcases lt_trichotomy a b with h | h | h
    · left; rw [if_pos h]
    · subst h
      simp only [lt_self_iff_false, if_false]
      exact strLeB_total as bs
    · right; rw [if_pos h]

theorem strLeB_trans : ∀ a b c : PStr,
    strLeB a b = true → strLeB b c = true → strLeB a c = true
  | [], _, _, _, _ => rfl
  | _ :: _, [], _, h, _ => by cases h
  | _ :: _, _ :: _, [], _, h => by cases h
  | a :: as, b :: bs, c :: cs, h1, h2 => by
    unfold strLeB at h1 h2 ⊢
    by_cases hab : a < b
    · by_cases hbc : b < c
      · rw [if_pos (lt_trans hab hbc)]
      · by_cases hcb : c < b
        · rw [if_neg hbc, if_pos hcb] at h2
          cases h2
        · have hbc' : b = c := le_antisymm (le_of_not_lt hcb) (le_of_not_lt hbc)
          subst hbc'
          rw [if_pos hab]
    · by_cases hba : b < a
      · rw [if_neg hab, if_pos hba] at h1
        cases h1
      · have hab' : a = b := le_antisymm (le_of_not_lt hba) (le_of_not_lt hab)
        subst hab'
        rw [if_neg hab, if_neg hba] at h1
        by_cases hac : a < c
        · rw [if_pos hac]
        · by_cases hca : c < a
          · rw [if_neg hac, if_pos hca] at h2
            cases h2
          · have hac' : a = c := le_antisymm (le_of_not_lt hca) (le_of_not_lt hac)
            subst hac'
            rw [if_neg hac, if_neg hca] at h2 ⊢
            exact strLeB_trans as bs cs h1 h2

theorem strLeB_antisymm : ∀ a b : PStr,
    strLeB a b = true → strLeB b a = true → a = b
  | [], [], _, _ => rfl
  | [], _ :: _, _, h => by cases h
  | _ :: _, [], h, _ => by cases h
  | a :: as, b :: bs, h1, h2 => by
    unfold strLeB at h1 h2
    by_cases hab : a < b
    · rw [if_neg (lt_asymm hab), if_pos hab] at h2
      cases h2
    · by_cases hba : b < a
      · rw [if_neg hab, if_pos hba] at h1
        cases h1
      · have he : a = b := le_antisymm (le_of_not_lt hba) (le_of_not_lt hab)
        subst he
        rw [if_neg hab, if_neg hba] at h1 h2
        rw [strLeB_antisymm as bs h1 h2]

theorem strLeB_append_left : ∀ d a b : PStr,
    strLeB a b = true → strLeB (d ++ a) (d ++ b) = true
  | [], _, _, h => h
  | c :: d, a, b, h => by
    show strLeB (c :: (d ++ a)) (c :: (d ++ b)) = true
    unfold strLeB
    simp only [lt_self_iff_false, if_false]
    exact strLeB_append_left d a b h

theorem path_join_eq_append {dir f : PStr} (hd : dir.getLast? = some '/')
    (h : '/' ∉ f) : path_join dir f = dir ++ f := by
  have h1 : ¬ (f.head? = some '/') := by
    intro hc
    cases f with
    | nil => simp at hc
    | cons c t =>
      simp at hc
      exact h (hc ▸ List.mem_cons_self c t)
  unfold path_join
  rw [if_neg h1, if_pos (Or.inr hd)]

theorem basename_no_slash {f : PStr} (h : '/' ∉ f) : basename f = f := by
  unfold basename
  rw [List.takeWhile_eq_self_iff.mpr, List.reverse_reverse]
  intro c hc
  simp only [bne_iff_ne, ne_eq]
  intro he
  exact h (he ▸ List.mem_reverse.1 hc)

theorem basename_append {dir f : PStr} (hd : dir.getLast? = some '/')
    (h : '/' ∉ f) : basename (dir ++ f) = f := by
  unfold basename
  rw [List.reverse_append]
  have hall : ∀ c ∈ f.reverse, (c != '/') = true := by
    intro c hc
    simp only [bne_iff_ne, ne_eq]
    intro he
    exact h (he ▸ List.mem_reverse.1 hc)
  rw [List.takeWhile_append_of_pos hall]
  have hdir : dir.reverse.takeWhile (fun c => c != '/') = [] := by
    cases hrev : dir.reverse with
    | nil => rfl
    | cons c t =>
      have hc : c = '/' := by
        have hh := List.head?_reverse dir
        rw [hrev, hd] at hh
        simpa using hh
      subst hc
      simp [List.takeWhile_cons]
  rw [hdir, List.append_nil, List.reverse_reverse]

theorem splitext_ext_append {dir f : PStr} (hd : dir.getLast? = some '/')
    (h : '/' ∉ f) : splitext_ext (dir ++ f) = splitext_ext f := by
  unfold splitext_ext
  rw [basename_append hd h, basename_no_slash h]

theorem extLower_join {dir f : PStr} (hd : dir.getLast? = some '/')
    (h : '/' ∉ f) : extLower (path_join dir f) = extLower f := by
  rw [path_join_eq_append hd h]
  unfold extLower
  rw [splitext_ext_append hd h]

/-- C9: `load_media_list` is deterministic and ordered.  For a directory
listing whose entries contain no `'/'` (as `os.listdir` guarantees): the kept
filenames are sorted lexicographically, the produced catalog itself is
sorted, every catalog path is absolute (starts with `'/'`), every catalog
entry is `MEDIA_DIR` joined with some supported file of the listing, and two
listings that are permutations of each other (the directory enumerated in
any order) produce the same catalog. -/
theorem C9_catalog_deterministic (l1 l2 : List PStr) (hperm : l1.Perm l2)
    (hns : ∀ f ∈ l1, '/' ∉ f) :
    List.Sorted strLe ((sortedPy l1).filter supportedFile)
    ∧ List.Sorted strLe (load_media_list l1)
    ∧ (∀ p ∈ load_media_list l1, p.head? = some '/')
    ∧ (∀ p ∈ load_media_list l1, ∃ f, f ∈ l1 ∧ supportedFile f = true
        ∧ p = path_join MEDIA_DIR f)
    ∧ load_media_list l1 = load_media_list l2 := by
  haveI hTot : IsTotal PStr strLe := ⟨strLeB_total⟩
  haveI hTrans : IsTrans PStr strLe := ⟨strLeB_trans⟩
  haveI hAnti : IsAntisymm PStr strLe := ⟨strLeB_antisymm⟩
  have hsort : List.Sorted strLe (sortedPy l1) := List.sorted_insertionSort strLe l1
  have hsortf : List.Sorted strLe ((sortedPy l1).filter supportedFile) :=
    List.Pairwise.filter supportedFile hsort
  have hmem : ∀ f ∈ (sortedPy l1).filter supportedFile, f ∈ l1 := by
    intro f hf
    exact (List.perm_insertionSort strLe l1).subset (List.mem_of_mem_filter hf)
  refine ⟨hsortf, ?_, ?_, ?_, ?_⟩
  · unfold load_media_list
    refine List.pairwise_map.mpr ?_
    refine List.Pairwise.imp_of_mem ?_ hsortf
    intro x y hx hy hxy
    rw [path_join_eq_append (by decide) (hns x (hmem x hx)),
      path_join_eq_append (by decide) (hns y (hmem y hy))]
    exact strLeB_append_left MEDIA_DIR x y hxy
  · intro p hp
    rcases List.mem_map.1 hp with ⟨f, hf, rfl⟩
    rw [path_join_eq_append (by decide) (hns f (hmem f hf))]
    rfl
  · intro p hp
    rcases List.mem_map.1 hp with ⟨f, hf, rfl⟩
    exact ⟨f, hmem f hf, (List.mem_filter.1 hf).2, rfl⟩
  · have hs : sortedPy l1 = sortedPy l2 :=
      List.eq_of_perm_of_sorted
        ((List.perm_insertionSort strLe l1).trans
          (hperm.trans (List.perm_insertionSort strLe l2).symm))
        (List.sorted_insertionSort strLe l1)
        (List.sorted_insertionSort strLe l2)
    unfold load_media_list
    rw [hs]

/-- Witness for `C9_catalog_deterministic`: two enumeration orders of the
same three files give the same catalog. -/
theorem C9_catalog_deterministic_witness :
    load_media_list ["b.jpg".toList, "a.png".toList, "x.txt".toList]
      = load_media_list ["x.txt".toList, "b.jpg".toList, "a.png".toList] :=
  (C9_catalog_deterministic ["b.jpg".toList, "a.png".toList, "x.txt".toList]
    ["x.txt".toList, "b.jpg".toList, "a.png".toList]
    (by decide) (by decide)).2.2.2.2

/-- C10: classification is binary, exhaustive and case-insensitive.  Every
catalog member's lowercased extension is in the image set or the video set;
joining onto `MEDIA_DIR` does not change the extension (so the membership
filter at app.py:94 and the branch test at app.py:178/190 agree); and at
show time an item is rendered as an image exactly when its lowered extension
is in `IMG_EXTS` and handled by the video branch (launch or black fallback)
in every other case — there is no third kind. -/
theorem C10_classification_binary (listing : List PStr)
    (hns : ∀ f ∈ listing, '/' ∉ f) :
    (∀ p ∈ load_media_list listing,
      extLower p ∈ IMG_EXTS ∨ extLower p ∈ VID_EXTS)
    ∧ (∀ dir f, dir.getLast? = some '/' → '/' ∉ f →
        extLower (path_join dir f) = extLower f)
    ∧ (∀ media a termOk now s i s' tr,
        show_item media a termOk now s i = some (s', tr) →
        (isImagePath (media.getD i []) = true → Ev.drawImage (media.getD i []) ∈ tr)
        ∧ (isImagePath (media.getD i []) = false →
            Ev.launchVideo (media.getD i []) ∈ tr ∨ Ev.fallbackBlack ∈ tr)) := by
  refine ⟨?_, ?_, ?_⟩
  · intro p hp
    rcases List.mem_map.1 hp with ⟨f, hf, rfl⟩
    have hmemf : f ∈ listing :=
      (List.perm_insertionSort strLe listing).subset (List.mem_of_mem_filter hf)
    have hsup : supportedFile f = true := (List.mem_filter.1 hf).2
    rw [extLower_join (by decide) (hns f hmemf)]
    exact (List.mem_append.1 (List.mem_of_elem_eq_true hsup)).imp id id
  · intro dir f hd hf
    exact extLower_join hd hf
  · intro media a termOk now s i s' tr h
    simp only [List.getD_eq_getElem?_getD]
    unfold show_item show_branches at h
    split_ifs at h <;> (cases h; constructor <;> intro hx <;> simp_all)

/-- Witness for `C10_classification_binary`: a file with an uppercase
extension (`B.JPG`) present in the catalog classifies into the image set. -/
theorem C10_classification_binary_witness :
    extLower (path_join MEDIA_DIR "B.JPG".toList) ∈ IMG_EXTS
      ∨ extLower (path_join MEDIA_DIR "B.JPG".toList) ∈ VID_EXTS :=
  (C10_classification_binary ["B.JPG".toList, "v.MP4".toList, "notes.txt".toList]
    (by decide)).1 (path_join MEDIA_DIR "B.JPG".toList) (by decide)
